import Mathlib

/-!
Verification of the osctet synthesis/playback core against its specification.

The Rust sources are shallowly embedded:
  * `f32`/`f64` values held in shared parameter cells are modelled as exact
    rationals (`ℚ`); every write the code performs to a cell is a write of the
    corresponding rational expression.
  * `midi_hz` maps a MIDI pitch to a frequency in Hz via an exponential; the
    embedding keeps frequency-cell contents symbolic as `FreqVal.midiHz p`,
    since every frequency write in `synth.rs` has the form `midi_hz(x)`.
  * `HashMap<Key, Voice>` is modelled as an association list with
    replace-on-insert semantics; `Sequencer` is modelled by its observable
    effects: a fresh-id counter bumped by `push_relative` and the list of
    `edit_relative` calls.
  * Machine integers (`u8`, `u32`, `usize`) are modelled as `ℕ`; the
    `as u32` saturating cast of a rounded `f64` is modelled by `Int.toNat`.
-/

namespace Osctet

/-- `KeyOrigin` from synth.rs. -/
inductive KeyOrigin where
  | Keyboard
  | Midi
  | Pattern
deriving DecidableEq, Repr

/-- `Key` from synth.rs: identity of a currently-sounding note. -/
structure Key where
  origin : KeyOrigin
  channel : ℕ
  key : ℕ
deriving DecidableEq, Repr

/-- `PlayMode` from synth.rs. -/
inductive PlayMode where
  | Poly
  | Mono
  | SingleTrigger
deriving DecidableEq, Repr

/-- `Waveform` from synth.rs. -/
inductive Waveform where
  | Sawtooth
  | Pulse
  | Triangle
  | Sine
deriving DecidableEq, Repr

/-- `OscOutput` from synth.rs: the routing target of an oscillator. -/
inductive OscOutput where
  | Mix (i : ℕ)
  | AM (i : ℕ)
  | FM (i : ℕ)
deriving DecidableEq, Repr

/-- `KeyTracking` from synth.rs. -/
inductive KeyTracking where
  | None
  | Partial
  | Full
deriving DecidableEq, Repr

/-- `FilterType` from synth.rs. -/
inductive FilterType where
  | Ladder
  | Lowpass
  | Highpass
  | Bandpass
deriving DecidableEq, Repr

/-- `ModSource` from synth.rs. -/
inductive ModSource where
  | Pitch
  | Pressure
  | Modulation
  | Random
  | Envelope (i : ℕ)
deriving DecidableEq, Repr

/-- `ModTarget` from synth.rs. -/
inductive ModTarget where
  | Gain
  | Level (i : ℕ)
  | Pitch (i : ℕ)
  | FinePitch (i : ℕ)
  | Duty (i : ℕ)
  | FilterCutoff
deriving DecidableEq, Repr

/-- `ModTarget::is_additive` from synth.rs. -/
def ModTarget.is_additive : ModTarget → Bool
  | ModTarget.Gain | ModTarget.Level _ => false
  | _ => true

/-- `ModTarget::osc` from synth.rs: the oscillator index a target refers to. -/
def ModTarget.osc : ModTarget → Option ℕ
  | ModTarget.Level n | ModTarget.Pitch n | ModTarget.FinePitch n | ModTarget.Duty n => some n
  | _ => none

/-- `Oscillator` from synth.rs; shared-cell contents are rationals. -/
structure Oscillator where
  level : ℚ
  duty : ℚ
  freq_ratio : ℚ
  fine_pitch : ℚ
  waveform : Waveform
  output : OscOutput
deriving DecidableEq, Repr

/-- `Oscillator::new` from synth.rs. -/
def Oscillator.new : Oscillator :=
  { level := 1/2, duty := 1/2, freq_ratio := 1, fine_pitch := 0,
    waveform := Waveform.Sine, output := OscOutput.Mix 0 }

/-- `ADSR` from synth.rs. -/
structure ADSR where
  attack : ℚ
  decay : ℚ
  sustain : ℚ
  release : ℚ
deriving DecidableEq, Repr

/-- `ADSR::new` from synth.rs. -/
def ADSR.new : ADSR :=
  { attack := 1/100, decay := 1, sustain := 1, release := 1/100 }

/-- `Filter` from synth.rs. -/
structure Filter where
  filter_type : FilterType
  cutoff : ℚ
  resonance : ℚ
  key_tracking : KeyTracking
deriving DecidableEq, Repr

/-- `Filter::new` from synth.rs. -/
def Filter.new : Filter :=
  { cutoff := 20000, resonance := 1/10, key_tracking := KeyTracking.None,
    filter_type := FilterType.Ladder }

/-- `Modulation` from synth.rs: one modulation-matrix entry. -/
structure Modulation where
  source : ModSource
  target : ModTarget
  depth : ℚ
deriving DecidableEq, Repr

/-- `Settings` from synth.rs: the patch configuration of one Synth. -/
structure Settings where
  oscs : List Oscillator
  envs : List ADSR
  filter : Filter
  play_mode : PlayMode
  glide_time : ℚ
  mod_matrix : List Modulation
deriving DecidableEq, Repr

/-- The re-indexing applied to one oscillator by `Settings::remove_osc`
(synth.rs lines 269-280): index 0 is forced to `Mix(0)`; otherwise an output
pointing above the removed index `i` is decremented, with its kind kept. -/
def reindexOutput (i : ℕ) (j : ℕ) (osc : Oscillator) : Oscillator :=
  if j = 0 then { osc with output := OscOutput.Mix 0 }
  else match osc.output with
    | OscOutput.Mix n => if n > i then { osc with output := OscOutput.Mix (n - 1) } else osc
    | OscOutput.AM n => if n > i then { osc with output := OscOutput.AM (n - 1) } else osc
    | OscOutput.FM n => if n > i then { osc with output := OscOutput.FM (n - 1) } else osc

/-- The re-indexing applied to one modulation-matrix entry by
`Settings::remove_osc` (synth.rs lines 284-290). Note the source rewrites any
entry whose target points above the removed index to `ModTarget::Duty(n - 1)`,
whatever its original kind was. -/
def reindexModTarget (i : ℕ) (m : Modulation) : Modulation :=
  match m.target.osc with
  | some n => if n > i then { m with target := ModTarget.Duty (n - 1) } else m
  | none => m

/-- `Settings::remove_osc` from synth.rs lines 264-292. -/
def Settings.remove_osc (s : Settings) (i : ℕ) : Settings :=
  if i < s.oscs.length then
    { s with
      oscs := (s.oscs.eraseIdx i).enum.map (fun p => reindexOutput i p.1 p.2),
      mod_matrix :=
        ((s.mod_matrix.filter (fun m => m.target.osc ≠ some i)).map (reindexModTarget i)) }
  else s

/-- A concrete `Settings` value exposing the `remove_osc` re-indexing slip:
three oscillators and a single matrix entry targeting `Level(2)`. -/
def exhibitSettings : Settings :=
  { oscs := [Oscillator.new, Oscillator.new, Oscillator.new],
    envs := [ADSR.new],
    filter := Filter.new,
    play_mode := PlayMode.Poly,
    glide_time := 1/20,
    mod_matrix := [{ source := ModSource.Pressure, target := ModTarget.Level 2, depth := 0 }] }

/-- Content of a voice's frequency cell. Every write of the cell in synth.rs
has the form `midi_hz(x)`, so contents are kept symbolic as `midiHz x`. -/
inductive FreqVal where
  | midiHz (pitch : ℚ)
deriving DecidableEq, Repr

/-- `VoiceVars` plus the scalar fields of `Voice` from synth.rs: the contents
of the voice's cells, its base pitch, release time and sequencer handle. -/
structure Voice where
  freq : FreqVal
  gate : ℚ
  pressure : ℚ
  modulation : ℚ
  base_pitch : ℚ
  release_time : ℚ
  event_id : ℕ
deriving DecidableEq, Repr

/-- The observable state of fundsp's `Sequencer` as used by synth.rs:
`nextId` is the id `push_relative` will hand out next, `edits` records the
`edit_relative` calls made when voices are released. -/
structure Sequencer where
  nextId : ℕ
  edits : List (ℕ × ℚ)
deriving DecidableEq, Repr

/-- An empty sequencer. -/
def Sequencer.init : Sequencer := { nextId := 0, edits := [] }

/-- `seq.push_relative(...)` as called from `Voice::new`: returns the fresh
event id and the sequencer with its counter bumped. -/
def Sequencer.push (seq : Sequencer) : ℕ × Sequencer :=
  (seq.nextId, { seq with nextId := seq.nextId + 1 })

/-- `Voice::new` from synth.rs lines 559-575: fresh cells (gate 1), release
time `max` over envelope releases folded from 0, scheduler handle pushed. -/
def Voice.new (pitch bend pressure modulation : ℚ) (settings : Settings)
    (seq : Sequencer) : Voice × Sequencer :=
  let p := seq.push
  ({ freq := FreqVal.midiHz (pitch + bend),
     gate := 1,
     pressure := pressure,
     modulation := modulation,
     base_pitch := pitch,
     release_time := (settings.envs.map ADSR.release).foldl max 0,
     event_id := p.1 }, p.2)

/-- `Voice::off` from synth.rs lines 577-581: the gate cell is set to 0 and
graph removal is scheduled after the voice's release time. -/
def Voice.off (v : Voice) (seq : Sequencer) : Voice × Sequencer :=
  ({ v with gate := 0 }, { seq with edits := (v.event_id, v.release_time) :: seq.edits })

/-- The voice pool: `HashMap<Key, Voice>` as an association list. -/
def VoicePool := List (Key × Voice)

/-- `HashMap::get`. -/
def lookupVoice : List (Key × Voice) → Key → Option Voice
  | [], _ => none
  | (k, v) :: rest, key => if k = key then some v else lookupVoice rest key

/-- Drop every entry for the given key (at most one exists in a pool built by
the operations below). Models `HashMap::remove` on the entry list. -/
def removeKey (key : Key) : List (Key × Voice) → List (Key × Voice)
  | [] => []
  | (k, v) :: rest =>
    if k = key then removeKey key rest else (k, v) :: removeKey key rest

/-- `HashMap::insert`: replaces any existing entry for the key. -/
def insertVoice (key : Key) (v : Voice) (pool : List (Key × Voice)) : List (Key × Voice) :=
  (key, v) :: removeKey key pool

/-- `HashMap::remove`: drops the entry for the key, if any. -/
def eraseVoice (key : Key) (pool : List (Key × Voice)) : List (Key × Voice) :=
  removeKey key pool

/-- The Mono-mode loop of `Synth::note_on`: `voice.off(seq)` applied to every
pooled voice. -/
def releaseAll : List (Key × Voice) → Sequencer → List (Key × Voice) × Sequencer
  | [], seq => ([], seq)
  | (k, v) :: rest, seq =>
    let p := v.off seq
    let q := releaseAll rest p.2
    ((k, p.1) :: q.1, q.2)

/-- `Synth` from synth.rs: pool, per-channel bend memory, modulation memory. -/
structure SynthS where
  settings : Settings
  voices : List (Key × Voice)
  bend_memory : ℕ → ℚ
  mod_memory : ℚ

/-- A fresh `Synth` with the given patch settings (as in `Synth::new`:
empty pool, zeroed bend and modulation memory). -/
def SynthS.init (st : Settings) : SynthS :=
  { settings := st, voices := [], bend_memory := fun _ => 0, mod_memory := 0 }

/-- `Synth::note_on` from synth.rs lines 141-170. -/
def SynthS.note_on (s : SynthS) (key : Key) (pitch pressure : ℚ)
    (seq : Sequencer) : SynthS × Sequencer :=
  let bend := if key.origin = KeyOrigin.Midi then s.bend_memory key.channel else 0
  match s.settings.play_mode with
  | PlayMode.Poly =>
    let p := Voice.new pitch bend pressure s.mod_memory s.settings seq
    ({ s with voices := insertVoice key p.1 s.voices }, p.2)
  | PlayMode.Mono =>
    let r := releaseAll s.voices seq
    let p := Voice.new pitch bend pressure s.mod_memory s.settings r.2
    ({ s with voices := insertVoice key p.1 r.1 }, p.2)
  | PlayMode.SingleTrigger =>
    match s.voices with
    | [] =>
      let p := Voice.new pitch bend pressure s.mod_memory s.settings seq
      ({ s with voices := insertVoice key p.1 s.voices }, p.2)
    | (_, v) :: _ =>
      ({ s with voices := [(key, { v with freq := FreqVal.midiHz pitch })] }, seq)

/-- `Synth::note_off` from synth.rs lines 172-176. -/
def SynthS.note_off (s : SynthS) (key : Key) (seq : Sequencer) : SynthS × Sequencer :=
  match lookupVoice s.voices key with
  | some v =>
    let p := v.off seq
    ({ s with voices := eraseVoice key s.voices }, p.2)
  | none => (s, seq)

/-- `Synth::pitch_bend` from synth.rs lines 178-185. -/
def SynthS.pitch_bend (s : SynthS) (channel : ℕ) (bend : ℚ) : SynthS :=
  { s with
    bend_memory := Function.update s.bend_memory channel bend,
    voices := s.voices.map (fun p =>
      if p.1.origin = KeyOrigin.Midi ∧ p.1.channel = channel then
        (p.1, { p.2 with freq := FreqVal.midiHz (p.2.base_pitch + bend) })
      else p) }

/-- `Synth::poly_pressure` from synth.rs lines 187-189. -/
def SynthS.poly_pressure (s : SynthS) (key : Key) (pressure : ℚ) : SynthS :=
  match lookupVoice s.voices key with
  | some _ =>
    { s with voices := s.voices.map (fun p =>
        if p.1 = key then (p.1, { p.2 with pressure := pressure }) else p) }
  | none => s

/-- `Synth::channel_pressure` from synth.rs lines 191-197. -/
def SynthS.channel_pressure (s : SynthS) (channel : ℕ) (pressure : ℚ) : SynthS :=
  { s with voices := s.voices.map (fun p =>
      if p.1.origin = KeyOrigin.Midi ∧ p.1.channel = channel then
        (p.1, { p.2 with pressure := pressure })
      else p) }

/-- `Synth::modulate` from synth.rs lines 199-206. -/
def SynthS.modulate (s : SynthS) (depth : ℚ) : SynthS :=
  { s with
    mod_memory := depth,
    voices := s.voices.map (fun p =>
      if p.1.origin = KeyOrigin.Midi then (p.1, { p.2 with modulation := depth }) else p) }

/-- One control event in a note-lifecycle run. -/
inductive SynthOp where
  | noteOn (key : Key) (pitch pressure : ℚ)
  | noteOff (key : Key)

/-- Run a sequence of note-on/note-off calls against a Synth. -/
def runOps : SynthS → Sequencer → List SynthOp → SynthS × Sequencer
  | s, seq, [] => (s, seq)
  | s, seq, SynthOp.noteOn key pitch pressure :: rest =>
    let p := s.note_on key pitch pressure seq
    runOps p.1 p.2 rest
  | s, seq, SynthOp.noteOff key :: rest =>
    let p := s.note_off key seq
    runOps p.1 p.2 rest

/-- The set of currently-held keys after a run: keys whose `note_on` has not
yet been followed by a `note_off`. -/
def heldFrom (start : Finset Key) : List SynthOp → Finset Key
  | [] => start
  | SynthOp.noteOn key _ _ :: rest => heldFrom (insert key start) rest
  | SynthOp.noteOff key :: rest => heldFrom (start.erase key) rest

/-- Number of pooled voices whose gate cell reads 1 (sounding, not
releasing). -/
def soundingCount (pool : List (Key × Voice)) : ℕ :=
  (pool.filter (fun p => p.2.gate = 1)).length

/-- The settings constructed by `Synth::new` in synth.rs lines 117-139. -/
def Settings.new : Settings :=
  { oscs := [Oscillator.new], envs := [ADSR.new], filter := Filter.new,
    play_mode := PlayMode.Poly, glide_time := 1/20,
    mod_matrix :=
      [{ source := ModSource.Envelope 0, target := ModTarget.Gain, depth := 0 },
       { source := ModSource.Pressure, target := ModTarget.Gain, depth := 0 }] }

lemma lookupVoice_removeKey_ne (pool : List (Key × Voice)) (key other : Key)
    (h : other ≠ key) :
    lookupVoice (removeKey key pool) other = lookupVoice pool other := by
  induction pool with
  | nil => rfl
  | cons head rest ih =>
    obtain ⟨k0, v0⟩ := head
    by_cases hk : k0 = key
    · subst hk
      have hko : ¬ k0 = other := fun e => h e.symm
      simp [removeKey, lookupVoice, hko, ih]
    · simp [removeKey, hk, lookupVoice, ih]

lemma lookupVoice_insert_ne (pool : List (Key × Voice)) (key other : Key) (v : Voice)
    (h : other ≠ key) :
    lookupVoice (insertVoice key v pool) other = lookupVoice pool other := by
  have hko : ¬ key = other := fun e => h e.symm
  simp [insertVoice, lookupVoice, hko, lookupVoice_removeKey_ne pool key other h]

lemma mem_keys_removeKey (pool : List (Key × Voice)) (key x : Key) :
    x ∈ (removeKey key pool).map Prod.fst
      ↔ x ∈ pool.map Prod.fst ∧ x ≠ key := by
  induction pool with
  | nil => simp [removeKey]
  | cons head rest ih =>
    obtain ⟨k0, v0⟩ := head
    by_cases hk : k0 = key
    · subst hk
      have hred : removeKey k0 ((k0, v0) :: rest) = removeKey k0 rest := by
        simp [removeKey]
      rw [hred, ih]
      simp only [List.map_cons, List.mem_cons]
      constructor
      · exact fun hx => ⟨Or.inr hx.1, hx.2⟩
      · rintro ⟨rfl | hr, hx⟩
        · exact absurd rfl hx
        · exact ⟨hr, hx⟩
    · have hred : removeKey key ((k0, v0) :: rest) = (k0, v0) :: removeKey key rest := by
        simp [removeKey, hk]
      rw [hred]
      simp only [List.map_cons, List.mem_cons, ih]
      constructor
      · rintro (rfl | ⟨hr, hx⟩)
        · exact ⟨Or.inl rfl, hk⟩
        · exact ⟨Or.inr hr, hx⟩
      · rintro ⟨rfl | hr, hx⟩
        · exact Or.inl rfl
        · exact Or.inr ⟨hr, hx⟩

lemma nodup_keys_removeKey (pool : List (Key × Voice)) (key : Key)
    (h : (pool.map Prod.fst).Nodup) :
    ((removeKey key pool).map Prod.fst).Nodup := by
  induction pool with
  | nil => simp [removeKey]
  | cons head rest ih =>
    obtain ⟨k0, v0⟩ := head
    simp only [List.map_cons, List.nodup_cons] at h
    by_cases hk : k0 = key
    · simpa [removeKey, hk] using ih h.2
    · have hred : removeKey key ((k0, v0) :: rest) = (k0, v0) :: removeKey key rest := by
        simp [removeKey, hk]
      rw [hred]
      simp only [List.map_cons, List.nodup_cons]
      exact ⟨fun hmem => h.1 ((mem_keys_removeKey rest key k0).mp hmem).1, ih h.2⟩

lemma lookupVoice_eq_none_iff (pool : List (Key × Voice)) (key : Key) :
    lookupVoice pool key = none ↔ key ∉ pool.map Prod.fst := by
  induction pool with
  | nil => simp [lookupVoice]
  | cons head rest ih =>
    obtain ⟨k0, v0⟩ := head
    by_cases hk : k0 = key
    · subst hk
      simp [lookupVoice]
    · have hk2 : ¬ key = k0 := fun e => hk e.symm
      simp [lookupVoice, hk, ih, hk2]

/-- `note_on` never changes the patch settings. -/
lemma note_on_settings (s : SynthS) (key : Key) (pitch pressure : ℚ) (seq : Sequencer) :
    (s.note_on key pitch pressure seq).1.settings = s.settings := by
  rcases hm : s.settings.play_mode with _ | _ | _
  · simp [SynthS.note_on, hm]
  · simp [SynthS.note_on, hm]
  · rcases hv : s.voices with _ | ⟨⟨k0, v0⟩, rest⟩
    · simp [SynthS.note_on, hm, hv]
    · simp [SynthS.note_on, hm, hv]

/-- `note_off` never changes the patch settings. -/
lemma note_off_settings (s : SynthS) (key : Key) (seq : Sequencer) :
    (s.note_off key seq).1.settings = s.settings := by
  rcases h : lookupVoice s.voices key with _ | v <;> simp [SynthS.note_off, h]

/-- Key-set/nodup invariant of the Poly voice pool under a run. -/
lemma poly_run_invariant (ops : List SynthOp) :
    ∀ (s : SynthS) (seq : Sequencer) (H : Finset Key),
      s.settings.play_mode = PlayMode.Poly →
      ((s.voices.map Prod.fst).Nodup ∧ ∀ x, x ∈ s.voices.map Prod.fst ↔ x ∈ H) →
      (((runOps s seq ops).1.voices.map Prod.fst).Nodup
       ∧ ∀ x, x ∈ (runOps s seq ops).1.voices.map Prod.fst ↔ x ∈ heldFrom H ops) := by
  induction ops with
  | nil => intro s seq H _ hinv; exact hinv
  | cons op rest ih =>
    intro s seq H hmode hinv
    cases op with
    | noteOn key pitch pressure =>
      simp only [runOps, heldFrom]
      refine ih _ _ _ (by rw [note_on_settings]; exact hmode) ?_
      have hvoices : (s.note_on key pitch pressure seq).1.voices
          = insertVoice key (Voice.new pitch
              (if key.origin = KeyOrigin.Midi then s.bend_memory key.channel else 0)
              pressure s.mod_memory s.settings seq).1 s.voices := by
        simp [SynthS.note_on, hmode]
      rw [hvoices]
      constructor
      · refine List.nodup_cons.mpr ⟨?_, nodup_keys_removeKey _ _ hinv.1⟩
        intro hmem
        exact ((mem_keys_removeKey s.voices key key).mp hmem).2 rfl
      · intro x
        simp only [insertVoice, List.map_cons, List.mem_cons, mem_keys_removeKey,
          Finset.mem_insert, hinv.2]
        by_cases hx : x = key <;> simp [hx]
    | noteOff key =>
      simp only [runOps, heldFrom]
      refine ih _ _ _ (by rw [note_off_settings]; exact hmode) ?_
      rcases hl : lookupVoice s.voices key with _ | v
      · have hvoices : (s.note_off key seq).1.voices = s.voices := by
          simp [SynthS.note_off, hl]
        rw [hvoices]
        have hkey : key ∉ s.voices.map Prod.fst := (lookupVoice_eq_none_iff _ _).mp hl
        refine ⟨hinv.1, fun x => ?_⟩
        rw [Finset.mem_erase, ← hinv.2]
        constructor
        · intro hx
          exact ⟨fun e => hkey (e ▸ hx), hx⟩
        · exact fun hx => hx.2
      · have hvoices : (s.note_off key seq).1.voices = eraseVoice key s.voices := by
          simp [SynthS.note_off, hl]
        rw [hvoices]
        refine ⟨nodup_keys_removeKey _ _ hinv.1, fun x => ?_⟩
        rw [eraseVoice, mem_keys_removeKey, hinv.2, Finset.mem_erase]
        tauto

/-- C5: under Poly mode, the voice pool holds exactly one Voice per
currently-held Key — voice count equals held-key count after every run — and a
`note_on` for one Key leaves every other Key's voice untouched. -/
theorem poly_voice_count (st : Settings) (h : st.play_mode = PlayMode.Poly)
    (ops : List SynthOp) :
    (runOps (SynthS.init st) Sequencer.init ops).1.voices.length
      = (heldFrom ∅ ops).card
    ∧ ∀ (s : SynthS) (seq : Sequencer) (key : Key) (pitch pressure : ℚ) (other : Key),
        s.settings.play_mode = PlayMode.Poly → other ≠ key →
        lookupVoice (s.note_on key pitch pressure seq).1.voices other
          = lookupVoice s.voices other := by
  constructor
  · have hinv := poly_run_invariant ops (SynthS.init st) Sequencer.init ∅ h
      (by simp [SynthS.init])
    set keys := (runOps (SynthS.init st) Sequencer.init ops).1.voices.map Prod.fst with hkeys
    have hlen : (runOps (SynthS.init st) Sequencer.init ops).1.voices.length
        = keys.length := by rw [hkeys, List.length_map]
    rw [hlen]
    have hset : keys.toFinset = heldFrom ∅ ops := by
      ext x
      rw [List.mem_toFinset]
      exact hinv.2 x
    rw [← hset]
    exact (List.toFinset_card_of_nodup hinv.1).symm
  · intro s seq key pitch pressure other hmode hne
    have hvoices : (s.note_on key pitch pressure seq).1.voices
        = insertVoice key (Voice.new pitch
            (if key.origin = KeyOrigin.Midi then s.bend_memory key.channel else 0)
            pressure s.mod_memory s.settings seq).1 s.voices := by
      simp [SynthS.note_on, hmode]
    rw [hvoices, lookupVoice_insert_ne _ _ _ _ hne]

/-- C5 witness: a concrete Poly run (two notes on, one off). -/
theorem poly_voice_count_witness :
    (runOps (SynthS.init Settings.new) Sequencer.init
        [SynthOp.noteOn ⟨KeyOrigin.Keyboard, 0, 60⟩ 60 0,
         SynthOp.noteOn ⟨KeyOrigin.Keyboard, 0, 62⟩ 62 0,
         SynthOp.noteOff ⟨KeyOrigin.Keyboard, 0, 60⟩]).1.voices.length
      = (heldFrom ∅
          [SynthOp.noteOn ⟨KeyOrigin.Keyboard, 0, 60⟩ 60 0,
           SynthOp.noteOn ⟨KeyOrigin.Keyboard, 0, 62⟩ 62 0,
           SynthOp.noteOff ⟨KeyOrigin.Keyboard, 0, 60⟩]).card
    ∧ ∀ (s : SynthS) (seq : Sequencer) (key : Key) (pitch pressure : ℚ) (other : Key),
        s.settings.play_mode = PlayMode.Poly → other ≠ key →
        lookupVoice (s.note_on key pitch pressure seq).1.voices other
          = lookupVoice s.voices other :=
  poly_voice_count Settings.new rfl _

/-- C6: a SingleTrigger note-on with a voice already pooled reuses it —
the sequencer is untouched (no new envelope trigger is pushed), the reused
voice keeps its scheduler handle, its frequency cell is rewritten to the new
pitch, and the voice is re-keyed under the new Key. -/
theorem single_trigger_legato (s : SynthS) (seq : Sequencer) (key : Key)
    (pitch pressure : ℚ) (k0 : Key) (v : Voice) (rest : List (Key × Voice))
    (hmode : s.settings.play_mode = PlayMode.SingleTrigger)
    (hv : s.voices = (k0, v) :: rest) :
    (s.note_on key pitch pressure seq).2 = seq
    ∧ (s.note_on key pitch pressure seq).1.voices
        = [(key, { v with freq := FreqVal.midiHz pitch })]
    ∧ ∃ w, lookupVoice (s.note_on key pitch pressure seq).1.voices key = some w
        ∧ w.event_id = v.event_id ∧ w.freq = FreqVal.midiHz pitch := by
  have hrun : s.note_on key pitch pressure seq
      = ({ s with voices := [(key, { v with freq := FreqVal.midiHz pitch })] }, seq) := by
    simp [SynthS.note_on, hmode, hv]
  refine ⟨by rw [hrun], by rw [hrun], ?_⟩
  refine ⟨{ v with freq := FreqVal.midiHz pitch }, ?_, rfl, rfl⟩
  rw [hrun]
  simp [lookupVoice]

/-- A pooled voice for the C6 witness. -/
def exSingleVoice : Voice :=
  { freq := FreqVal.midiHz 60, gate := 1, pressure := 0, modulation := 0,
    base_pitch := 60, release_time := 1/100, event_id := 0 }

/-- A SingleTrigger synth holding one voice, for the C6 witness. -/
def exSingleSynth : SynthS :=
  { settings := { Settings.new with play_mode := PlayMode.SingleTrigger },
    voices := [(⟨KeyOrigin.Keyboard, 0, 60⟩, exSingleVoice)],
    bend_memory := fun _ => 0, mod_memory := 0 }

/-- C6 witness: concrete legato note-on. -/
theorem single_trigger_legato_witness :
    (exSingleSynth.note_on ⟨KeyOrigin.Keyboard, 0, 64⟩ 64 0 ⟨1, []⟩).2 = ⟨1, []⟩
    ∧ (exSingleSynth.note_on ⟨KeyOrigin.Keyboard, 0, 64⟩ 64 0 ⟨1, []⟩).1.voices
        = [(⟨KeyOrigin.Keyboard, 0, 64⟩, { exSingleVoice with freq := FreqVal.midiHz 64 })]
    ∧ ∃ w, lookupVoice (exSingleSynth.note_on ⟨KeyOrigin.Keyboard, 0, 64⟩ 64 0 ⟨1, []⟩).1.voices
          ⟨KeyOrigin.Keyboard, 0, 64⟩ = some w
        ∧ w.event_id = exSingleVoice.event_id ∧ w.freq = FreqVal.midiHz 64 :=
  single_trigger_legato exSingleSynth ⟨1, []⟩ ⟨KeyOrigin.Keyboard, 0, 64⟩ 64 0
    ⟨KeyOrigin.Keyboard, 0, 60⟩ exSingleVoice [] rfl rfl

lemma releaseAll_gate (pool : List (Key × Voice)) :
    ∀ seq, ∀ p ∈ (releaseAll pool seq).1, p.2.gate = 0 := by
  induction pool with
  | nil => intro seq p hp; cases hp
  | cons head rest ih =>
    obtain ⟨k0, v0⟩ := head
    intro seq p hp
    simp only [releaseAll, List.mem_cons] at hp
    rcases hp with rfl | hp
    · rfl
    · exact ih _ p hp

lemma releaseAll_nextId (pool : List (Key × Voice)) :
    ∀ seq, (releaseAll pool seq).2.nextId = seq.nextId := by
  induction pool with
  | nil => intro seq; rfl
  | cons head rest ih =>
    obtain ⟨k0, v0⟩ := head
    intro seq
    exact ih _

lemma removeKey_sublist (key : Key) (pool : List (Key × Voice)) :
    List.Sublist (removeKey key pool) pool := by
  induction pool with
  | nil => exact List.Sublist.refl _
  | cons head rest ih =>
    obtain ⟨k0, v0⟩ := head
    by_cases hk : k0 = key
    · have hred : removeKey key ((k0, v0) :: rest) = removeKey key rest := by
        simp [removeKey, hk]
      rw [hred]
      exact ih.cons _
    · have hred : removeKey key ((k0, v0) :: rest) = (k0, v0) :: removeKey key rest := by
        simp [removeKey, hk]
      rw [hred]
      exact ih.cons₂ _

lemma soundingCount_sublist_le {pool pool2 : List (Key × Voice)}
    (h : List.Sublist pool pool2) :
    soundingCount pool ≤ soundingCount pool2 :=
  List.Sublist.length_le (h.filter _)

/-- A Mono note-on leaves only the new voice sounding. -/
lemma mono_noteOn_sounding (s : SynthS) (seq : Sequencer) (key : Key)
    (pitch pressure : ℚ) (hmode : s.settings.play_mode = PlayMode.Mono) :
    soundingCount (s.note_on key pitch pressure seq).1.voices = 1 := by
  have hrun : (s.note_on key pitch pressure seq).1.voices
      = insertVoice key (Voice.new pitch
          (if key.origin = KeyOrigin.Midi then s.bend_memory key.channel else 0)
          pressure s.mod_memory s.settings (releaseAll s.voices seq).2).1
        (releaseAll s.voices seq).1 := by
    simp [SynthS.note_on, hmode]
  rw [hrun, insertVoice, soundingCount, List.filter_cons]
  have hnew : (Voice.new pitch
      (if key.origin = KeyOrigin.Midi then s.bend_memory key.channel else 0)
      pressure s.mod_memory s.settings (releaseAll s.voices seq).2).1.gate = 1 := rfl
  have hrest : (removeKey key (releaseAll s.voices seq).1).filter
      (fun p => p.2.gate = 1) = [] := by
    rw [List.filter_eq_nil_iff]
    intro p hp
    have hz : p.2.gate = 0 :=
      releaseAll_gate s.voices seq p ((removeKey_sublist key _).mem hp)
    simp [hz]
  simp [hnew, soundingCount, hrest]

/-- The at-most-one-sounding invariant holds along every Mono run. -/
lemma mono_run_invariant (ops : List SynthOp) :
    ∀ (s : SynthS) (seq : Sequencer),
      s.settings.play_mode = PlayMode.Mono →
      soundingCount s.voices ≤ 1 →
      soundingCount (runOps s seq ops).1.voices ≤ 1 := by
  induction ops with
  | nil => intro s seq _ h; exact h
  | cons op rest ih =>
    intro s seq hmode hinv
    cases op with
    | noteOn key pitch pressure =>
      simp only [runOps]
      refine ih _ _ (by rw [note_on_settings]; exact hmode) ?_
      rw [mono_noteOn_sounding s seq key pitch pressure hmode]
    | noteOff key =>
      simp only [runOps]
      refine ih _ _ (by rw [note_off_settings]; exact hmode) ?_
      rcases hl : lookupVoice s.voices key with _ | v
      · have hvoices : (s.note_off key seq).1.voices = s.voices := by
          simp [SynthS.note_off, hl]
        rw [hvoices]; exact hinv
      · have hvoices : (s.note_off key seq).1.voices = eraseVoice key s.voices := by
          simp [SynthS.note_off, hl]
        rw [hvoices]
        exact le_trans (soundingCount_sublist_le (removeKey_sublist key s.voices)) hinv

/-- C7: under Mono mode at most one pooled voice has its gate cell at 1 after
any run, and every Mono note-on first releases all other voices (their gates
read 0 afterwards) and then inserts a fresh retriggered Voice (gate 1, with a
newly pushed scheduler handle). -/
theorem mono_at_most_one_sounding (st : Settings) (hm : st.play_mode = PlayMode.Mono)
    (ops : List SynthOp) :
    soundingCount (runOps (SynthS.init st) Sequencer.init ops).1.voices ≤ 1
    ∧ ∀ (s : SynthS) (seq : Sequencer) (key : Key) (pitch pressure : ℚ),
        s.settings.play_mode = PlayMode.Mono →
        ((∀ p ∈ (s.note_on key pitch pressure seq).1.voices, p.1 ≠ key → p.2.gate = 0)
         ∧ ∃ w, lookupVoice (s.note_on key pitch pressure seq).1.voices key = some w
             ∧ w.gate = 1 ∧ w.event_id = seq.nextId) := by
  constructor
  · exact mono_run_invariant ops _ _ hm (by simp [SynthS.init, soundingCount])
  · intro s seq key pitch pressure hmode
    have hrun : (s.note_on key pitch pressure seq).1.voices
        = insertVoice key (Voice.new pitch
            (if key.origin = KeyOrigin.Midi then s.bend_memory key.channel else 0)
            pressure s.mod_memory s.settings (releaseAll s.voices seq).2).1
          (releaseAll s.voices seq).1 := by
      simp [SynthS.note_on, hmode]
    rw [hrun, insertVoice]
    constructor
    · intro p hp hpk
      rcases List.mem_cons.mp hp with rfl | hp
      · exact absurd rfl hpk
      · exact releaseAll_gate s.voices seq p ((removeKey_sublist key _).mem hp)
    · refine ⟨(Voice.new pitch
          (if key.origin = KeyOrigin.Midi then s.bend_memory key.channel else 0)
          pressure s.mod_memory s.settings (releaseAll s.voices seq).2).1,
        by simp [lookupVoice], rfl, ?_⟩
      show (releaseAll s.voices seq).2.nextId = seq.nextId
      exact releaseAll_nextId s.voices seq

/-- C7 witness: a concrete Mono run. -/
theorem mono_at_most_one_sounding_witness :
    soundingCount (runOps (SynthS.init { Settings.new with play_mode := PlayMode.Mono })
        Sequencer.init
        [SynthOp.noteOn ⟨KeyOrigin.Keyboard, 0, 60⟩ 60 0,
         SynthOp.noteOn ⟨KeyOrigin.Keyboard, 0, 62⟩ 62 0]).1.voices ≤ 1
    ∧ ∀ (s : SynthS) (seq : Sequencer) (key : Key) (pitch pressure : ℚ),
        s.settings.play_mode = PlayMode.Mono →
        ((∀ p ∈ (s.note_on key pitch pressure seq).1.voices, p.1 ≠ key → p.2.gate = 0)
         ∧ ∃ w, lookupVoice (s.note_on key pitch pressure seq).1.voices key = some w
             ∧ w.gate = 1 ∧ w.event_id = seq.nextId) :=
  mono_at_most_one_sounding { Settings.new with play_mode := PlayMode.Mono } rfl _

/-- C8: for a Key absent from the pool, note-off and poly-pressure are silent
no-ops: the Synth state and the sequencer are returned unchanged. -/
theorem absent_key_noop (s : SynthS) (seq : Sequencer) (key : Key) (pressure : ℚ)
    (h : lookupVoice s.voices key = none) :
    s.note_off key seq = (s, seq) ∧ s.poly_pressure key pressure = s := by
  constructor
  · simp [SynthS.note_off, h]
  · simp [SynthS.poly_pressure, h]

/-- C8 witness: absent key on a fresh synth. -/
theorem absent_key_noop_witness :
    (SynthS.init Settings.new).note_off ⟨KeyOrigin.Midi, 3, 40⟩ Sequencer.init
      = (SynthS.init Settings.new, Sequencer.init)
    ∧ (SynthS.init Settings.new).poly_pressure ⟨KeyOrigin.Midi, 3, 40⟩ (1/2)
      = SynthS.init Settings.new :=
  absent_key_noop (SynthS.init Settings.new) Sequencer.init ⟨KeyOrigin.Midi, 3, 40⟩ (1/2) rfl

/-- Routing-graph skeleton of the fundsp `Net` values built by
`Settings::make_osc` (synth.rs lines 310-334): recursive structure and the
oscillator indices consulted are kept; each non-recursive DSP leaf (waveform
chain, level cell, Level-target matrix component) is a tagged node. -/
inductive Net where
  | zeroN
  | oneN
  | outOfFuel
  | add (a b : Net)
  | mul (a b : Net)
  | wave (i : ℕ) (w : Waveform) (fm : Net)
  | levelVar (i : ℕ)
  | levelMod (i : ℕ)
deriving DecidableEq, Repr

/-- The oscillator at index `j` (indexing in the loop of `make_osc` is always
in range; the default is never consulted there). -/
def oscAt (oscs : List Oscillator) (j : ℕ) : Oscillator :=
  oscs.getD j Oscillator.new

/-- Indices `j > i` whose output is `Mix(i)` (the first branch of the loop in
`make_osc`), in iteration order. -/
def mixIndices (oscs : List Oscillator) (i : ℕ) : List ℕ :=
  (List.range oscs.length).filter (fun j => i < j ∧ (oscAt oscs j).output = OscOutput.Mix i)

/-- Indices `j > i` whose output is `AM(i)`. -/
def amIndices (oscs : List Oscillator) (i : ℕ) : List ℕ :=
  (List.range oscs.length).filter (fun j => i < j ∧ (oscAt oscs j).output = OscOutput.AM i)

/-- Indices `j > i` whose output is `FM(i)`. -/
def fmIndices (oscs : List Oscillator) (i : ℕ) : List ℕ :=
  (List.range oscs.length).filter (fun j => i < j ∧ (oscAt oscs j).output = OscOutput.FM i)

/-- `mixed_oscs = mixed_oscs + ...` accumulation of `make_osc`. -/
def sumNets (init : Net) (l : List Net) : Net := l.foldl Net.add init

/-- `am_oscs = am_oscs * ...` accumulation of `make_osc`. -/
def prodNets (init : Net) (l : List Net) : Net := l.foldl Net.mul init

/-- Fuel-indexed form of `Settings::make_osc`; `make_osc` instantiates the
fuel at `oscs.length`, which the termination theorem shows is enough. -/
def makeOscF : ℕ → List Oscillator → ℕ → Net
  | 0, _, _ => Net.outOfFuel
  | fuel + 1, oscs, i =>
    Net.add
      (Net.mul
        (Net.mul
          (Net.mul
            (Net.wave i (oscAt oscs i).waveform
              (sumNets Net.zeroN ((fmIndices oscs i).map (makeOscF fuel oscs))))
            (Net.levelVar i))
          (Net.levelMod i))
        (prodNets Net.oneN ((amIndices oscs i).map (makeOscF fuel oscs))))
      (sumNets Net.zeroN ((mixIndices oscs i).map (makeOscF fuel oscs)))

/-- `Settings::make_osc` on a bare oscillator list. -/
def makeOsc (oscs : List Oscillator) (i : ℕ) : Net := makeOscF oscs.length oscs i

/-- `Settings::make_osc` from synth.rs lines 310-334. -/
def Settings.make_osc (s : Settings) (i : ℕ) : Net := makeOsc s.oscs i

/-- All oscillator indices a built net consults. -/
def netRefs : Net → List ℕ
  | Net.zeroN | Net.oneN | Net.outOfFuel => []
  | Net.add a b => netRefs a ++ netRefs b
  | Net.mul a b => netRefs a ++ netRefs b
  | Net.wave i _ fm => i :: netRefs fm
  | Net.levelVar i => [i]
  | Net.levelMod i => [i]

lemma mem_mixIndices {oscs : List Oscillator} {i j : ℕ} (h : j ∈ mixIndices oscs i) :
    i < j ∧ j < oscs.length := by
  simp only [mixIndices, List.mem_filter, List.mem_range, decide_eq_true_eq] at h
  exact ⟨h.2.1, h.1⟩

lemma mem_amIndices {oscs : List Oscillator} {i j : ℕ} (h : j ∈ amIndices oscs i) :
    i < j ∧ j < oscs.length := by
  simp only [amIndices, List.mem_filter, List.mem_range, decide_eq_true_eq] at h
  exact ⟨h.2.1, h.1⟩

lemma mem_fmIndices {oscs : List Oscillator} {i j : ℕ} (h : j ∈ fmIndices oscs i) :
    i < j ∧ j < oscs.length := by
  simp only [fmIndices, List.mem_filter, List.mem_range, decide_eq_true_eq] at h
  exact ⟨h.2.1, h.1⟩

lemma netRefs_foldl (op : Net → Net → Net)
    (hop : ∀ a b, netRefs (op a b) = netRefs a ++ netRefs b) (l : List Net) :
    ∀ (init : Net) (j : ℕ),
      j ∈ netRefs (l.foldl op init) ↔ j ∈ netRefs init ∨ ∃ n ∈ l, j ∈ netRefs n := by
  induction l with
  | nil => simp
  | cons a l ih =>
    intro init j
    rw [List.foldl_cons, ih, hop]
    simp only [List.mem_append, List.mem_cons]
    constructor
    · rintro ((h | h) | ⟨n, hn, hj⟩)
      · exact Or.inl h
      · exact Or.inr ⟨a, Or.inl rfl, h⟩
      · exact Or.inr ⟨n, Or.inr hn, hj⟩
    · rintro (h | ⟨n, rfl | hn, hj⟩)
      · exact Or.inl (Or.inl h)
      · exact Or.inl (Or.inr hj)
      · exact Or.inr ⟨n, hn, hj⟩

lemma makeOscF_refs (fuel : ℕ) :
    ∀ (oscs : List Oscillator) (i : ℕ), ∀ j ∈ netRefs (makeOscF fuel oscs i), i ≤ j := by
  induction fuel with
  | zero => intro oscs i j hj; simp [makeOscF, netRefs] at hj
  | succ fuel ih =>
    intro oscs i j hj
    simp only [makeOscF, netRefs] at hj
    have hsub : ∀ (idx : List ℕ) (hmem : ∀ a ∈ idx, i < a ∧ a < oscs.length),
        j ∈ netRefs (sumNets Net.zeroN (idx.map (makeOscF fuel oscs))) → i ≤ j := by
      intro idx hmem hj
      rcases (netRefs_foldl Net.add (fun a b => rfl) _ _ _).mp hj with h | ⟨n, hn, hjn⟩
      · simp [netRefs] at h
      · obtain ⟨a, ha, rfl⟩ := List.mem_map.mp hn
        exact le_trans (le_of_lt (hmem a ha).1) (ih oscs a j hjn)
    rcases List.mem_append.mp hj with hj | hmix
    · rcases List.mem_append.mp hj with hj | ham
      · rcases List.mem_append.mp hj with hj | hlm
        · rcases List.mem_append.mp hj with hj | hlv
          · rcases List.mem_cons.mp hj with rfl | hj
            · exact le_refl j
            · exact hsub _ (fun a ha => mem_fmIndices ha) hj
          · rw [List.mem_singleton] at hlv
            exact le_of_eq hlv.symm
        · rw [List.mem_singleton] at hlm
          exact le_of_eq hlm.symm
      · rcases (netRefs_foldl Net.mul (fun a b => rfl) _ _ _).mp ham with h | ⟨n, hn, hjn⟩
        · simp [netRefs] at h
        · obtain ⟨a, ha, rfl⟩ := List.mem_map.mp hn
          exact le_trans (le_of_lt (mem_amIndices ha).1) (ih oscs a j hjn)
    · exact hsub _ (fun a ha => mem_mixIndices ha) hmix

lemma makeOscF_fuel_indep : ∀ (f1 f2 : ℕ) (oscs : List Oscillator) (i : ℕ),
    i < oscs.length → oscs.length - i ≤ f1 → oscs.length - i ≤ f2 →
    makeOscF f1 oscs i = makeOscF f2 oscs i := by
  intro f1
  induction f1 with
  | zero => intro f2 oscs i hi h1 h2; omega
  | succ f1 ih =>
    intro f2 oscs i hi h1 h2
    cases f2 with
    | zero => omega
    | succ g =>
      have hfm : (fmIndices oscs i).map (makeOscF f1 oscs)
          = (fmIndices oscs i).map (makeOscF g oscs) :=
        List.map_congr_left (fun a ha => by
          obtain ⟨hia, haL⟩ := mem_fmIndices ha
          exact ih g oscs a haL (by omega) (by omega))
      have ham : (amIndices oscs i).map (makeOscF f1 oscs)
          = (amIndices oscs i).map (makeOscF g oscs) :=
        List.map_congr_left (fun a ha => by
          obtain ⟨hia, haL⟩ := mem_amIndices ha
          exact ih g oscs a haL (by omega) (by omega))
      have hmix : (mixIndices oscs i).map (makeOscF f1 oscs)
          = (mixIndices oscs i).map (makeOscF g oscs) :=
        List.map_congr_left (fun a ha => by
          obtain ⟨hia, haL⟩ := mem_mixIndices ha
          exact ih g oscs a haL (by omega) (by omega))
      simp only [makeOscF, hfm, ham, hmix]

/-- C9: `make_osc(i)` consults only oscillator indices `≥ i` (the root node
itself is `i`; every recursive reference is strictly greater, so the routing
graph is acyclic by index ordering), and the recursion terminates: any fuel of
at least `oscs.length - i` yields the same finite net. -/
theorem make_osc_references_higher (s : Settings) (i : ℕ) (hi : i < s.oscs.length) :
    (∀ j ∈ netRefs (s.make_osc i), i ≤ j)
    ∧ ∀ fuel, s.oscs.length - i ≤ fuel → makeOscF fuel s.oscs i = s.make_osc i := by
  constructor
  · intro j hj
    exact makeOscF_refs s.oscs.length s.oscs i j hj
  · intro fuel hf
    show makeOscF fuel s.oscs i = makeOscF s.oscs.length s.oscs i
    exact makeOscF_fuel_indep fuel s.oscs.length s.oscs i hi hf (by omega)

/-- A two-oscillator patch (osc 1 FM-modulates osc 0) for the C9 witness. -/
def exFmSettings : Settings :=
  { oscs := [Oscillator.new, { Oscillator.new with output := OscOutput.FM 0 }],
    envs := [ADSR.new], filter := Filter.new, play_mode := PlayMode.Poly,
    glide_time := 1/20, mod_matrix := [] }

/-- C9 witness: building oscillator 0 of the concrete FM patch. -/
theorem make_osc_references_higher_witness :
    (∀ j ∈ netRefs (exFmSettings.make_osc 0), 0 ≤ j)
    ∧ ∀ fuel, exFmSettings.oscs.length - 0 ≤ fuel →
        makeOscF fuel exFmSettings.oscs 0 = exFmSettings.make_osc 0 :=
  make_osc_references_higher exFmSettings 0 (by decide)

/-- The `EventData` variants dispatched by `Player::handle_event`
(playback.rs lines 158-183). -/
inductive EventData where
  | Pitch (note : ℕ)
  | NoteOff
  | Pressure (v : ℕ)
  | Modulation (v : ℕ)
  | Tempo (t : ℚ)
  | RationalTempo (n d : ℕ)
  | End
  | Loop
deriving DecidableEq, Repr

/-- A pattern event from module.rs. -/
structure PEvent where
  tick : ℕ
  data : EventData
deriving DecidableEq, Repr

/-- `Channel` from module.rs. -/
structure PChannel where
  events : List PEvent
deriving DecidableEq, Repr

/-- `TrackTarget` from module.rs. -/
inductive TrackTarget where
  | none
  | global
  | kit
  | patch (i : ℕ)
deriving DecidableEq, Repr

/-- `Track` from module.rs. -/
structure PTrack where
  target : TrackTarget
  channels : List PChannel
deriving DecidableEq, Repr

/-- `KitEntry` from module.rs. -/
structure KitEntry where
  input_note : ℕ
  patch_index : ℕ
  patch_note : ℕ
deriving DecidableEq, Repr

/-- `Module` from module.rs, restricted to the fields the Player reads.
Notes are their numeric ids; patches are patch Settings indices. -/
structure Module where
  tracks : List PTrack
  patches : List Settings
  kit : List KitEntry
deriving DecidableEq, Repr

/-- `Module::get_kit_patch` from module.rs: first kit entry matching the
input note, yielding (patch index, patch note). -/
def Module.get_kit_patch (m : Module) (note : ℕ) : Option (ℕ × ℕ) :=
  (m.kit.find? (fun x => x.input_note = note)).map (fun x => (x.patch_index, x.patch_note))

/-- `Module::map_note` from module.rs lines 184-192. -/
def Module.map_note (m : Module) (note : ℕ) (track : ℕ) : Option (ℕ × ℕ) :=
  match m.tracks[track]? with
  | Option.none => Option.none
  | Option.some t =>
    match t.target with
    | TrackTarget.none | TrackTarget.global => Option.none
    | TrackTarget.kit => m.get_kit_patch note
    | TrackTarget.patch i => if i < m.patches.length then some (i, note) else Option.none

/-- All Loop-marker ticks in track 0 of a module. -/
def loopTicks (m : Module) : List ℕ :=
  ((m.tracks.headD { target := TrackTarget.none, channels := [] }).channels.map
    (fun c => (c.events.filter (fun e => e.data = EventData.Loop)).map PEvent.tick)).flatten

/-- The Loop-marker ticks strictly before `before` (the filter of
`Module::find_loop_start`, module.rs lines 389-395: `e.tick < before_time`). -/
def loopTicksBefore (m : Module) (before : ℕ) : List ℕ :=
  ((m.tracks.headD { target := TrackTarget.none, channels := [] }).channels.map
    (fun c => (c.events.filter
      (fun e => e.data = EventData.Loop ∧ e.tick < before)).map PEvent.tick)).flatten

/-- `Module::find_loop_start` from module.rs lines 389-395: the latest Loop
tick strictly before the given time, if any. -/
def Module.find_loop_start (m : Module) (before : ℕ) : Option ℕ :=
  (loopTicksBefore m before).max?

/-- `DEFAULT_TEMPO` from playback.rs. -/
def DEFAULT_TEMPO : ℚ := 120

/-- `MAX_PRESSURE` from playback.rs. -/
def MAX_PRESSURE : ℕ := 9

/-- `MAX_MODULATION` from playback.rs. -/
def MAX_MODULATION : ℕ := 9

/-- `Player` from playback.rs; the per-track synths follow the synth.rs
snapshot of the Synth API. -/
structure Player where
  synths : List SynthS
  seq : Sequencer
  playing : Bool
  tick : ℕ
  playtime : ℚ
  tempo : ℚ
  looped : Bool

/-- Modelled from the spec: `Synth::clear_notes_with_origin` is called by
`Player::stop` but is absent from the synth.rs snapshot under src. Per the
spec it cancels (note-off, i.e. remove, gate to 0, schedule removal) every
pooled note whose Key has the given origin. -/
def SynthS.clear_notes_with_origin (s : SynthS) (seq : Sequencer)
    (origin : KeyOrigin) : SynthS × Sequencer :=
  ({ s with voices := s.voices.filter (fun p => ¬ p.1.origin = origin) },
   (s.voices.filter (fun p => p.1.origin = origin)).foldl
     (fun sq p => { sq with edits := (p.2.event_id, p.2.release_time) :: sq.edits }) seq)

/-- `Player::clear_notes_with_origin` from playback.rs lines 122-126. -/
def Player.clear_notes_with_origin (p : Player) (origin : KeyOrigin) : Player :=
  let r := p.synths.foldl (fun (acc : List SynthS × Sequencer) s =>
      let q := s.clear_notes_with_origin acc.2 origin
      (acc.1 ++ [q.1], q.2)) ([], p.seq)
  { p with synths := r.1, seq := r.2 }

/-- `Player::stop` from playback.rs lines 54-57. -/
def Player.stop (p : Player) : Player :=
  { p.clear_notes_with_origin KeyOrigin.Pattern with playing := false }

/-- `Player::note_on` from playback.rs lines 84-90 (the synth call follows
the synth.rs snapshot's signature). -/
def Player.note_on (p : Player) (track : ℕ) (key : Key) (pitch pressure : ℚ) : Player :=
  match p.synths[track]? with
  | Option.some s =>
    let q := s.note_on key pitch pressure p.seq
    { p with synths := p.synths.set track q.1, seq := q.2 }
  | Option.none => p

/-- `Player::note_off` from playback.rs lines 92-96. -/
def Player.note_off (p : Player) (track : ℕ) (key : Key) : Player :=
  match p.synths[track]? with
  | Option.some s =>
    let q := s.note_off key p.seq
    { p with synths := p.synths.set track q.1, seq := q.2 }
  | Option.none => p

/-- `Player::poly_pressure` from playback.rs lines 98-102. -/
def Player.poly_pressure (p : Player) (track : ℕ) (key : Key) (pressure : ℚ) : Player :=
  match p.synths[track]? with
  | Option.some s => { p with synths := p.synths.set track (s.poly_pressure key pressure) }
  | Option.none => p

/-- `Player::modulate` from playback.rs lines 104-108 (the synth.rs snapshot's
`Synth::modulate` takes no channel; the Player argument is kept). -/
def Player.modulate (p : Player) (track : ℕ) (_channel : ℕ) (depth : ℚ) : Player :=
  match p.synths[track]? with
  | Option.some s => { p with synths := p.synths.set track (s.modulate depth) }
  | Option.none => p

/-- `Player::channel_pressure` from playback.rs lines 110-114. -/
def Player.channel_pressure (p : Player) (track : ℕ) (channel : ℕ) (pressure : ℚ) : Player :=
  match p.synths[track]? with
  | Option.some s => { p with synths := p.synths.set track (s.channel_pressure channel pressure) }
  | Option.none => p

/-- `Player::pitch_bend` from playback.rs lines 116-120. -/
def Player.pitch_bend (p : Player) (track : ℕ) (channel : ℕ) (bend : ℚ) : Player :=
  match p.synths[track]? with
  | Option.some s => { p with synths := p.synths.set track (s.pitch_bend channel bend) }
  | Option.none => p

/-- `Player::go_to` from playback.rs lines 186-188. -/
def Player.go_to (p : Player) (tick : ℕ) : Player := { p with tick := tick }

/-- Modelled from the spec: `tuning.midi_pitch` lives in pitch.rs, which is
not under src; notes are identified with their numeric MIDI pitch. -/
def midiPitch (note : ℕ) : ℚ := note

/-- `Player::handle_event` from playback.rs lines 149-184. -/
def Player.handle_event (p : Player) (m : Module) (data : EventData)
    (track channel : ℕ) : Player :=
  let key : Key := { origin := KeyOrigin.Pattern, channel := channel, key := 0 }
  match data with
  | EventData.Pitch note =>
    match m.map_note note track with
    | Option.some pr => p.note_on track key (midiPitch pr.2) 0
    | Option.none => p
  | EventData.Pressure v => p.channel_pressure track channel ((v : ℚ) / (MAX_PRESSURE : ℚ))
  | EventData.Modulation v => p.modulate track channel ((v : ℚ) / (MAX_MODULATION : ℚ))
  | EventData.NoteOff => p.note_off track key
  | EventData.Tempo t => { p with tempo := t }
  | EventData.RationalTempo n d => { p with tempo := p.tempo * ((n : ℚ) / (d : ℚ)) }
  | EventData.End =>
    match m.find_loop_start p.tick with
    | Option.some t => { p.go_to t with looped := true }
    | Option.none => p.stop
  | EventData.Loop => p

/-- C10: every per-track Player entry point is a silent no-op when the track
index has no Synth (index at or beyond the synth list). -/
theorem out_of_range_track_noop (p : Player) (track : ℕ) (key : Key) (channel : ℕ)
    (pitch pressure depth bend : ℚ) (h : p.synths.length ≤ track) :
    p.note_on track key pitch pressure = p
    ∧ p.note_off track key = p
    ∧ p.poly_pressure track key pressure = p
    ∧ p.modulate track channel depth = p
    ∧ p.channel_pressure track channel pressure = p
    ∧ p.pitch_bend track channel bend = p := by
  have hnone : p.synths[track]? = none := List.getElem?_eq_none h
  refine ⟨?_, ?_, ?_, ?_, ?_, ?_⟩ <;>
    simp [Player.note_on, Player.note_off, Player.poly_pressure, Player.modulate,
      Player.channel_pressure, Player.pitch_bend, hnone]

/-- A Player with no track synths, for concrete witnesses. -/
def exEmptyPlayer : Player :=
  { synths := [], seq := Sequencer.init, playing := true, tick := 5,
    playtime := 0, tempo := DEFAULT_TEMPO, looped := false }

/-- C10 witness: track 0 of a synthless Player. -/
theorem out_of_range_track_noop_witness :
    exEmptyPlayer.note_on 0 ⟨KeyOrigin.Pattern, 0, 0⟩ 60 0 = exEmptyPlayer
    ∧ exEmptyPlayer.note_off 0 ⟨KeyOrigin.Pattern, 0, 0⟩ = exEmptyPlayer
    ∧ exEmptyPlayer.poly_pressure 0 ⟨KeyOrigin.Pattern, 0, 0⟩ 0 = exEmptyPlayer
    ∧ exEmptyPlayer.modulate 0 0 0 = exEmptyPlayer
    ∧ exEmptyPlayer.channel_pressure 0 0 0 = exEmptyPlayer
    ∧ exEmptyPlayer.pitch_bend 0 0 0 = exEmptyPlayer :=
  out_of_range_track_noop exEmptyPlayer 0 ⟨KeyOrigin.Pattern, 0, 0⟩ 0 60 0 0 0
    (Nat.le_refl 0)

/-- An empty module, for concrete witnesses. -/
def exEmptyModule : Module := { tracks := [], patches := [], kit := [] }

/-- C3: `RationalTempo` events scale the current tempo by `n / d`, so they
compose multiplicatively; in particular two `RationalTempo(1,2)` dispatches
equal one `RationalTempo(1,4)` dispatch. -/
theorem rational_tempo_composes (p : Player) (m : Module) (track channel : ℕ)
    (n d n2 d2 : ℕ) (_hd : d ≠ 0) (_hd2 : d2 ≠ 0) :
    (p.handle_event m (EventData.RationalTempo 1 2) track channel).handle_event m
        (EventData.RationalTempo 1 2) track channel
      = p.handle_event m (EventData.RationalTempo 1 4) track channel
    ∧ (p.handle_event m (EventData.RationalTempo n d) track channel).tempo
        = p.tempo * ((n : ℚ) / (d : ℚ))
    ∧ ((p.handle_event m (EventData.RationalTempo n d) track channel).handle_event m
        (EventData.RationalTempo n2 d2) track channel).tempo
        = p.tempo * (((n * n2 : ℕ) : ℚ) / ((d * d2 : ℕ) : ℚ)) := by
  refine ⟨?_, rfl, ?_⟩
  · simp only [Player.handle_event]
    congr 1
    push_cast
    ring
  · simp only [Player.handle_event]
    push_cast
    rw [mul_assoc, div_mul_div_comm]

/-- C3 witness: concrete tempo-scaling dispatches with nonzero denominators. -/
theorem rational_tempo_composes_witness :
    (exEmptyPlayer.handle_event exEmptyModule (EventData.RationalTempo 1 2) 0 0).handle_event
        exEmptyModule (EventData.RationalTempo 1 2) 0 0
      = exEmptyPlayer.handle_event exEmptyModule (EventData.RationalTempo 1 4) 0 0
    ∧ (exEmptyPlayer.handle_event exEmptyModule (EventData.RationalTempo 2 3) 0 0).tempo
        = exEmptyPlayer.tempo * ((2 : ℚ) / (3 : ℚ))
    ∧ ((exEmptyPlayer.handle_event exEmptyModule (EventData.RationalTempo 2 3) 0 0).handle_event
        exEmptyModule (EventData.RationalTempo 5 7) 0 0).tempo
        = exEmptyPlayer.tempo * (((2 * 5 : ℕ) : ℚ) / ((3 * 7 : ℕ) : ℚ)) :=
  rational_tempo_composes exEmptyPlayer exEmptyModule 0 0 2 3 5 7 (by decide) (by decide)

lemma mem_loopTicksBefore (m : Module) (b v : ℕ) :
    v ∈ loopTicksBefore m b ↔ v ∈ loopTicks m ∧ v < b := by
  simp only [loopTicksBefore, loopTicks, List.mem_flatten, List.mem_map, List.mem_filter,
    decide_eq_true_eq]
  constructor
  · rintro ⟨l, ⟨c, hc, rfl⟩, hv⟩
    obtain ⟨e, he, rfl⟩ := List.mem_map.mp hv
    have hef := List.mem_filter.mp he
    rw [decide_eq_true_eq] at hef
    refine ⟨⟨(c.events.filter (fun e => e.data = EventData.Loop)).map PEvent.tick,
      ⟨c, hc, rfl⟩, ?_⟩, hef.2.2⟩
    exact List.mem_map.mpr ⟨e, List.mem_filter.mpr ⟨hef.1, by simp [hef.2.1]⟩, rfl⟩
  · rintro ⟨⟨l, ⟨c, hc, rfl⟩, hv⟩, hb⟩
    obtain ⟨e, he, rfl⟩ := List.mem_map.mp hv
    have hef := List.mem_filter.mp he
    rw [decide_eq_true_eq] at hef
    refine ⟨(c.events.filter (fun e => decide (e.data = EventData.Loop ∧ e.tick < b))).map
      PEvent.tick, ⟨c, hc, rfl⟩, ?_⟩
    exact List.mem_map.mpr ⟨e, List.mem_filter.mpr ⟨hef.1, by simp [hef.2, hb]⟩, rfl⟩

lemma nat_max?_eq_some_iff {l : List ℕ} {a : ℕ} :
    l.max? = some a ↔ a ∈ l ∧ ∀ b ∈ l, b ≤ a :=
  List.max?_eq_some_iff (fun x => le_refl x) (fun x y => max_choice x y)
    (fun _ _ _ => max_le_iff)

/-- C2 (amended): on an `End` event the Player either seeks to the most
recent Loop marker strictly before the current tick (keeping `playing` and
setting `looped`), or, when no Loop marker lies strictly before the current
tick, stops playback. -/
theorem end_event_seeks_last_loop_before (p : Player) (m : Module) (track channel : ℕ) :
    ((p.handle_event m EventData.End track channel).playing = false
      ∧ ∀ v ∈ loopTicks m, ¬ v < p.tick)
    ∨ (∃ u, u ∈ loopTicks m ∧ u < p.tick ∧ (∀ v ∈ loopTicks m, v < p.tick → v ≤ u)
        ∧ p.handle_event m EventData.End track channel
            = { p with tick := u, looped := true }) := by
  rcases hfl : m.find_loop_start p.tick with _ | u
  · left
    constructor
    · simp [Player.handle_event, hfl, Player.stop, Player.clear_notes_with_origin]
    · intro v hv hvt
      have : v ∈ loopTicksBefore m p.tick := (mem_loopTicksBefore m p.tick v).mpr ⟨hv, hvt⟩
      rw [Module.find_loop_start, List.max?_eq_none_iff] at hfl
      rw [hfl] at this
      cases this
  · right
    have hmax := nat_max?_eq_some_iff.mp hfl
    have humem := (mem_loopTicksBefore m p.tick u).mp hmax.1
    refine ⟨u, humem.1, humem.2, ?_, ?_⟩
    · intro v hv hvt
      exact hmax.2 v ((mem_loopTicksBefore m p.tick v).mpr ⟨hv, hvt⟩)
    · simp [Player.handle_event, hfl, Player.go_to]

/-- The module of the C2 counterexample: a single track whose only event is a
Loop marker at tick 5. -/
def cexModule : Module :=
  { tracks := [{ target := TrackTarget.none,
                 channels := [{ events := [{ tick := 5, data := EventData.Loop }] }] }],
    patches := [], kit := [] }

/-- C2 counterexample: with the current tick exactly at the Loop marker (tick
5), a Loop marker at-or-before the current tick exists, yet dispatching `End`
stops playback instead of seeking to it — the code's `find_loop_start` filter
is strict (`tick < before`), not at-or-before. -/
theorem end_event_boundary_counterexample :
    (∃ v, v ∈ loopTicks cexModule ∧ v ≤ exEmptyPlayer.tick)
    ∧ exEmptyPlayer.playing = true
    ∧ (exEmptyPlayer.handle_event cexModule EventData.End 0 0).playing = false
    ∧ (exEmptyPlayer.handle_event cexModule EventData.End 0 0).looped = false := by
  refine ⟨⟨5, ?_, ?_⟩, rfl, ?_, ?_⟩
  · simp [loopTicks, cexModule]
  · decide
  · rfl
  · rfl

/-- Rust `f64::round`: round half away from zero. -/
def rustRound (q : ℚ) : ℤ :=
  if 0 ≤ q then ⌊q + 1/2⌋ else -⌊-q + 1/2⌋

/-- `interval_ticks` from playback.rs lines 191-193, over exact rationals;
`TICKS_PER_BEAT` lives in the module layer absent from this snapshot and is
the parameter `tpb` (the spec fixes only that it is a positive constant).
The `as u32` cast of a negative rounded value is saturation at 0 (`toNat`). -/
def interval_ticks (dt : ℚ) (tempo : ℚ) (tpb : ℕ) : ℕ :=
  (rustRound (dt * tempo / 60 * tpb)).toNat

/-- `tick_interval` from playback.rs lines 195-197. -/
def tick_interval (dtick : ℕ) (tempo : ℚ) (tpb : ℕ) : ℚ :=
  (dtick : ℚ) / tempo * 60 / tpb

/-- One advance step of `Player::frame` (playback.rs lines 133-136) on the
(tick, leftover playtime) state: `playtime += dt; tick +=
interval_ticks(playtime, tempo); playtime -= tick_interval(consumed, tempo)`. -/
def frameStep (tempo : ℚ) (tpb : ℕ) (dt : ℚ) (st : ℕ × ℚ) : ℕ × ℚ :=
  let pt := st.2 + dt
  let k := interval_ticks pt tempo tpb
  (st.1 + k, pt - tick_interval k tempo tpb)

/-- `n` frames of `Player::frame` at fixed tempo and time delta, from the
initial state (tick 0, no leftover). -/
def frameIter (tempo : ℚ) (tpb : ℕ) (dt : ℚ) : ℕ → ℕ × ℚ
  | 0 => (0, 0)
  | n + 1 => frameStep tempo tpb dt (frameIter tempo tpb dt n)

/-- The rounded-and-saturated tick count stays within half a tick of the
exact value, provided the exact value exceeds `-1/2` (which the leftover
invariant guarantees). -/
lemma round_step_bounds (x : ℚ) (hxlo : -(1/2) < x) :
    -(1/2) ≤ x - ((rustRound x).toNat : ℚ) ∧ x - ((rustRound x).toNat : ℚ) < 1/2 := by
  by_cases hx : 0 ≤ x
  · have h0 : (0 : ℤ) ≤ ⌊x + 1/2⌋ := Int.floor_nonneg.mpr (by linarith)
    rw [rustRound, if_pos hx]
    have hcast : ((⌊x + 1/2⌋.toNat : ℕ) : ℚ) = ((⌊x + 1/2⌋ : ℤ) : ℚ) := by
      norm_cast
      exact Int.toNat_of_nonneg h0
    rw [hcast]
    constructor
    · have h1 : ((⌊x + 1/2⌋ : ℤ) : ℚ) ≤ x + 1/2 := Int.floor_le _
      linarith
    · have h2 : x + 1/2 < (⌊x + 1/2⌋ : ℚ) + 1 := Int.lt_floor_add_one _
      linarith
  · push_neg at hx
    have h1 : (0 : ℚ) ≤ -x + 1/2 := by linarith
    have h2 : -x + 1/2 < 1 := by linarith
    have h3 : ⌊-x + 1/2⌋ = 0 := Int.floor_eq_zero_iff.mpr ⟨h1, h2⟩
    rw [rustRound, if_neg (not_le.mpr hx), h3]
    norm_num
    constructor <;> linarith

/-- Exact-sum invariant with bounded leftover: after `n` frames,
`tick + playtime * rate = n * dt * rate` exactly, and the leftover
`playtime * rate` lies in `[-1/2, 1/2)` (rate = tempo / 60 * ticks/beat). -/
lemma frameIter_invariant (tempo : ℚ) (tpb : ℕ) (dt : ℚ)
    (ht : 0 < tempo) (hb : 0 < tpb) (hd : 0 < dt) (n : ℕ) :
    (((frameIter tempo tpb dt n).1 : ℚ)
        + (frameIter tempo tpb dt n).2 * (tempo / 60 * tpb)
      = n * (dt * (tempo / 60 * tpb)))
    ∧ (-(1/2) ≤ (frameIter tempo tpb dt n).2 * (tempo / 60 * tpb))
    ∧ ((frameIter tempo tpb dt n).2 * (tempo / 60 * tpb) < 1/2) := by
  have hr : (0 : ℚ) < tempo / 60 * tpb := by positivity
  set r : ℚ := tempo / 60 * tpb with hrdef
  induction n with
  | zero => simp [frameIter]
  | succ n ih =>
    obtain ⟨hsum, hlo, hhi⟩ := ih
    set t : ℕ := (frameIter tempo tpb dt n).1 with hT
    set w : ℚ := (frameIter tempo tpb dt n).2 with hW
    have htempo : tempo ≠ 0 := ne_of_gt ht
    have htpb : (tpb : ℚ) ≠ 0 := by positivity
    set x : ℚ := (w + dt) * r with hX
    have hxsplit : x = w * r + dt * r := by rw [hX]; ring
    have hxlo : -(1/2) < x := by
      have hdr : 0 < dt * r := by positivity
      linarith [hxsplit]
    set k : ℕ := interval_ticks (w + dt) tempo tpb with hK
    have harg : (w + dt) * tempo / 60 * (tpb : ℚ) = x := by rw [hX, hrdef]; ring
    have hk : k = (rustRound x).toNat := by rw [hK, interval_ticks, harg]
    have htick : tick_interval k tempo tpb * r = (k : ℚ) := by
      rw [tick_interval, hrdef]
      field_simp
    have hstep : frameIter tempo tpb dt (n + 1)
        = (t + k, (w + dt) - tick_interval k tempo tpb) := by
      rw [frameIter, frameStep, ← hT, ← hW, ← hK]
    have hres : ((w + dt) - tick_interval k tempo tpb) * r = x - (k : ℚ) := by
      rw [sub_mul, htick, ← hX]
    obtain ⟨hb1, hb2⟩ := round_step_bounds x hxlo
    rw [← hk] at hb1 hb2
    rw [hstep]
    refine ⟨?_, ?_, ?_⟩
    · push_cast
      rw [hres]
      linarith [hxsplit]
    · rw [hres]; exact hb1
    · rw [hres]; exact hb2

/-- C4: driving the frame conversion for `n` frames of a fixed positive time
delta at a fixed tempo, the tick counter never drifts: it stays within one
tick of the exact rational `n * dt * tempo / 60 * ticks_per_beat`. -/
theorem tick_conversion_drift_free (tempo : ℚ) (tpb : ℕ) (dt : ℚ)
    (ht : 0 < tempo) (hb : 0 < tpb) (hd : 0 < dt) (n : ℕ) :
    |((frameIter tempo tpb dt n).1 : ℚ) - n * (dt * (tempo / 60 * tpb))| ≤ 1 := by
  obtain ⟨hsum, hlo, hhi⟩ := frameIter_invariant tempo tpb dt ht hb hd n
  rw [abs_le]
  constructor <;> linarith

/-- C4 witness: 3 frames of 10 ms at 120 BPM with 8 ticks per beat. -/
theorem tick_conversion_drift_free_witness :
    |((frameIter 120 8 (1/100) 3).1 : ℚ) - 3 * ((1/100) * ((120 : ℚ) / 60 * 8))| ≤ 1 :=
  tick_conversion_drift_free 120 8 (1/100) (by norm_num) (by norm_num) (by norm_num) 3

/-- C1: after `remove_osc(1)` on a patch whose only matrix entry targets
`Level(2)`, the code leaves a single entry targeting `Duty(1)` — the index is
decremented as the claim states, but the target kind collapses from `Level` to
`Duty` instead of being preserved, contradicting the claimed re-indexing
invariant (the entry should become `Level(1)`). -/
theorem remove_osc_collapses_target_kind :
    (exhibitSettings.remove_osc 1).mod_matrix.map Modulation.target = [ModTarget.Duty 1]
    ∧ ModTarget.Duty 1 ≠ ModTarget.Level 1
    ∧ (exhibitSettings.remove_osc 1).oscs.length = 2 := by
  refine ⟨rfl, by decide, rfl⟩

end Osctet
